import Mathlib

/-!
Verification development for the ripmedia candidate-resolution and pipeline
orchestration code.  The Python sources (`resolver.py`, `pipeline.py`,
`webhost.py`, `model.py`, `errors.py`) are shallowly embedded below:

* text normalisation and the Ratcliff/Obershelp similarity used by the
  scorer (`difflib.SequenceMatcher` with no junk, as invoked by
  `_similarity`) are embedded as executable functions on `List Char`;
* Python floats are modelled by exact rationals `ℚ`;
* fallible calls are modelled with `Option`/`Except`, and the external
  catalog search backend is a parameter (`String → Except String _`) so
  that independence from it can be stated;
* the webhost's download manager is modelled as a state machine over the
  per-item record, and the event broker over explicit subscriber queues.
-/

set_option maxRecDepth 40000

namespace Ripmedia

/-! ### Text normalisation (`resolver._norm_text` and friends) -/

/-- True for the characters kept by the regex `[^a-z0-9]+` substitution
(after lowercasing): lowercase ASCII letters and digits. -/
def isLowerAlnum (c : Char) : Bool :=
  (decide ('a' ≤ c) && decide (c ≤ 'z')) || (decide ('0' ≤ c) && decide (c ≤ '9'))

/-- Expansion step of `value.replace("&", " and ")`. -/
def expandAmp (c : Char) : List Char :=
  if c = '&' then [' ', 'a', 'n', 'd', ' '] else [c]

/-- Embedding of `resolver._norm_text`: lowercase, expand `&` to " and ",
replace runs of non-alphanumerics with a single space, collapse whitespace
and strip.  The last three steps are together equivalent to splitting on
spaces, dropping empty words and re-joining with single spaces. -/
def normText (s : String) : List Char :=
  let lowered := s.toList.map Char.toLower
  let expanded := (lowered.map expandAmp).flatten
  let spaced := expanded.map (fun c => if isLowerAlnum c then c else ' ')
  List.intercalate [' '] ((spaced.splitOn ' ').filter (fun w => ¬ w.isEmpty))

/-- Contiguous-substring test, the embedding of Python's `in` on strings. -/
def containsSub : List Char → List Char → Bool
  | needle, [] => needle.isEmpty
  | needle, c :: rest => needle.isPrefixOf (c :: rest) || containsSub needle rest

/-- Embedding of `resolver._contains`. -/
def containsScore (needle hay : List Char) : ℚ :=
  if needle = [] ∨ hay = [] then 0 else if containsSub needle hay then 1 else 0

/-! ### `difflib.SequenceMatcher` (no junk), as used by `resolver._similarity`

`matchLen a b alo blo i j` is the length of the common run of `a` and `b`
ending at positions `(i, j)` and starting no earlier than `(alo, blo)`:
exactly the `j2len` chain lengths maintained by `find_longest_match`.
`findLongestMatch` scans all in-range index pairs in lexicographic order,
updating only on a strictly longer run — the same tie-breaking as the
CPython loop.  `mbSize` is the total size of the recursively collected
matching blocks (structural fuel stands in for the well-founded recursion;
`a.length + b.length` units always suffice because every recursive call
strictly shrinks the combined range). -/

def matchLen (a b : List Char) (alo blo : Nat) : Nat → Nat → Nat
  | 0, j => if alo = 0 ∧ blo ≤ j ∧ a[0]? ≠ none ∧ a[0]? = b[j]? then 1 else 0
  | i + 1, 0 => if alo ≤ i + 1 ∧ blo = 0 ∧ a[i + 1]? ≠ none ∧ a[i + 1]? = b[0]? then 1 else 0
  | i + 1, j + 1 =>
    if alo ≤ i + 1 ∧ blo ≤ j + 1 ∧ a[i + 1]? ≠ none ∧ a[i + 1]? = b[j + 1]? then
      matchLen a b alo blo i j + 1
    else 0

/-- All pairs `(i, j)` with `alo ≤ i < ahi` and `blo ≤ j < bhi`, in the
scan order of `find_longest_match`. -/
def lexPairs (alo ahi blo bhi : Nat) : List (Nat × Nat) :=
  (List.range' alo (ahi - alo)).flatMap (fun i => (List.range' blo (bhi - blo)).map (fun j => (i, j)))

/-- Scan of the candidate pairs, updating the running best block
`(besti, bestj, bestsize)` only on a strictly longer run — the same
update rule and scan order as the CPython loop. -/
def flmGo (a b : List Char) (alo blo : Nat) : List (Nat × Nat) → Nat → Nat → Nat → Nat × Nat × Nat
  | [], bi, bj, bk => (bi, bj, bk)
  | p :: rest, bi, bj, bk =>
    if bk < matchLen a b alo blo p.1 p.2 then
      flmGo a b alo blo rest (p.1 + 1 - matchLen a b alo blo p.1 p.2)
        (p.2 + 1 - matchLen a b alo blo p.1 p.2) (matchLen a b alo blo p.1 p.2)
    else flmGo a b alo blo rest bi bj bk

/-- Embedding of `SequenceMatcher.find_longest_match` on the given ranges. -/
def findLongestMatch (a b : List Char) (alo ahi blo bhi : Nat) : Nat × Nat × Nat :=
  flmGo a b alo blo (lexPairs alo ahi blo bhi) alo blo 0

/-- Total size of the matching blocks found by the recursive
divide-and-conquer of `get_matching_blocks`, with structural fuel. -/
def mbSize (a b : List Char) : Nat → Nat → Nat → Nat → Nat → Nat
  | 0, _, _, _, _ => 0
  | fuel + 1, alo, ahi, blo, bhi =>
    match findLongestMatch a b alo ahi blo bhi with
    | (i, j, k) =>
      if k = 0 then 0
      else mbSize a b fuel alo i blo j + k + mbSize a b fuel (i + k) ahi (j + k) bhi

/-- Number of matching characters `M` over the whole strings. -/
def totalMatch (a b : List Char) : Nat :=
  mbSize a b (a.length + b.length) 0 a.length 0 b.length

/-- `SequenceMatcher.ratio()`: `2*M / (len(a) + len(b))`. -/
def ratioQ (a b : List Char) : ℚ :=
  (2 * totalMatch a b : ℚ) / ((a.length : ℚ) + (b.length : ℚ))

/-- Embedding of `resolver._similarity` (0 when either side is empty). -/
def similarity (a b : List Char) : ℚ :=
  if a = [] ∨ b = [] then 0 else ratioQ a b

/-! ### Data model (`model.py`) -/

/-- Embedding of `model.Provider`. -/
inductive Provider where
  | youtube
  | soundcloud
  | spotify
  | unknown
  deriving DecidableEq, Repr

/-- Display name used in error messages (`Provider.value`). -/
def providerName : Provider → String
  | .youtube => "youtube"
  | .soundcloud => "soundcloud"
  | .spotify => "spotify"
  | .unknown => "unknown"

/-- The `item.extra["spotify"]` sub-dictionary, reduced to the key the
resolver reads (`isrc`). -/
structure SpotifyExtraData where
  isrc : Option String
  deriving DecidableEq, Repr

/-- The `item.extra` dictionary, reduced to the key the resolver reads. -/
structure ExtraData where
  spotify : Option SpotifyExtraData
  deriving DecidableEq, Repr

/-- Embedding of `model.NormalizedItem`, restricted to the fields the
resolver and scorer read.  `None` fields of the dataclass are `none`. -/
structure NormalizedItem where
  provider : Provider
  title : Option String
  artist : Option String
  durationSeconds : Option Int
  extra : Option ExtraData
  deriving DecidableEq, Repr

/-- A raw search hit (a yt-dlp `entry` dict), reduced to the keys
`_resolve_candidates_from_search`, `_entry_url` and `_score_candidate`
read.  A key that is absent or `None` is `none`. -/
structure SearchEntry where
  webpageUrl : Option String
  url : Option String
  title : Option String
  channel : Option String
  uploader : Option String
  duration : Option Int
  deriving DecidableEq, Repr

/-- Embedding of `resolver.ResolvedSource`. -/
structure ResolvedSource where
  url : String
  provider : Provider
  confidence : ℚ
  confidenceHint : Option String
  selectedTitle : Option String
  selectedChannel : Option String
  deriving DecidableEq, Repr

/-- A raised `RipmediaError` (message plus optional `stage` tag). -/
structure RipErr where
  msg : String
  stage : Option String
  deriving DecidableEq, Repr

/-! ### Scoring (`resolver._score_candidate` and helpers) -/

/-- Python `str.strip()`: drop whitespace from both ends. -/
def stripWs (s : String) : String :=
  ⟨((s.toList.dropWhile Char.isWhitespace).reverse.dropWhile Char.isWhitespace).reverse⟩

/-- Python truthiness chain `x or y` on optional strings (used where the
code keeps the raw right operand). -/
def pyOr (x y : Option String) : Option String :=
  match x with
  | some s => if s ≠ "" then some s else y
  | none => y

/-- Embedding of `resolver._spotify_isrc`.  Note the code tests truthiness
of the raw value and then strips it, so a blank-only ISRC comes back as
`some ""` (which every use site then treats as absent). -/
def spotifyIsrc (item : NormalizedItem) : Option String :=
  match item.extra with
  | none => none
  | some ex =>
    match ex.spotify with
    | none => none
    | some sp =>
      match sp.isrc with
      | none => none
      | some s => if s = "" then none else some (stripWs s)

/-- Lowercased character list of a string (Python `str.lower`, ASCII). -/
def lowerChars (s : String) : List Char :=
  s.toList.map Char.toLower

/-- The haystack `" ".join([title, channel, uploader]).lower()` the code
searches for the ISRC. -/
def joinedHaystack (candidate : SearchEntry) : List Char :=
  lowerChars (candidate.title.getD "" ++ " " ++ candidate.channel.getD "" ++ " " ++ candidate.uploader.getD "")

/-- Embedding of `resolver._score_candidate`. -/
def scoreCandidate (item : NormalizedItem) (candidate : SearchEntry) : ℚ :=
  let expectedTitle := normText (item.title.getD "")
  let expectedArtist := normText (item.artist.getD "")
  let candTitle := normText (candidate.title.getD "")
  let candChannel := normText (candidate.channel.getD "")
  let candUploader := normText (candidate.uploader.getD "")
  let titleScore := similarity expectedTitle candTitle
  let artistScore :=
    if expectedArtist = [] then 0 else
      max (similarity expectedArtist candChannel)
        (max (containsScore expectedArtist candChannel)
          (max (similarity expectedArtist candUploader)
            (max (containsScore expectedArtist candUploader)
              (max (similarity expectedArtist candTitle)
                (containsScore expectedArtist candTitle)))))
  let base :=
    match item.durationSeconds, candidate.duration with
    | some d, some cd =>
      45 / 100 * titleScore + 35 / 100 * artistScore + 20 / 100 * max 0 (1 - ((|d - cd| : ℤ) : ℚ) / 30)
    | _, _ => 7 / 10 * titleScore + 3 / 10 * artistScore
  let withBonus :=
    match spotifyIsrc item with
    | some isrc =>
      if isrc ≠ "" ∧ containsSub (lowerChars isrc) (joinedHaystack candidate) then base + 15 / 100
      else base
    | none => base
  min 1 withBonus

/-! ### The scoring formula as the specification words it

`titleScoreOf`, `artistScoreOf` and `blendOf` restate §4.1 of the
specification; `specScore` adds the ISRC bonus under the specification's
condition (the ID appears as a substring of the candidate's title, channel
or uploader — three separate fields), while `specScoreJoined` adds it
under the code's condition (a substring of the space-joined concatenation
of the three fields).  The two differ exactly when the ID can straddle a
field boundary, i.e. only for IDs containing a space. -/

/-- The specification's `titleScore`. -/
def titleScoreOf (item : NormalizedItem) (candidate : SearchEntry) : ℚ :=
  similarity (normText (item.title.getD "")) (normText (candidate.title.getD ""))

/-- The specification's `artistScore` (max of six comparisons; 0 when the
wanted artist is absent). -/
def artistScoreOf (item : NormalizedItem) (candidate : SearchEntry) : ℚ :=
  let expectedArtist := normText (item.artist.getD "")
  let candTitle := normText (candidate.title.getD "")
  let candChannel := normText (candidate.channel.getD "")
  let candUploader := normText (candidate.uploader.getD "")
  if expectedArtist = [] then 0 else
    max (similarity expectedArtist candChannel)
      (max (containsScore expectedArtist candChannel)
        (max (similarity expectedArtist candUploader)
          (max (containsScore expectedArtist candUploader)
            (max (similarity expectedArtist candTitle)
              (containsScore expectedArtist candTitle)))))

/-- The specification's weighted blend: duration-aware when both durations
are known, title/artist-only otherwise. -/
def blendOf (item : NormalizedItem) (candidate : SearchEntry) : ℚ :=
  match item.durationSeconds, candidate.duration with
  | some d, some cd =>
    45 / 100 * titleScoreOf item candidate + 35 / 100 * artistScoreOf item candidate +
      20 / 100 * max 0 (1 - ((|d - cd| : ℤ) : ℚ) / 30)
  | _, _ => 7 / 10 * titleScoreOf item candidate + 3 / 10 * artistScoreOf item candidate

/-- The claim's bonus condition: the external ID appears case-insensitively
as a substring of the candidate's title, or of its channel, or of its
uploader. -/
def isrcBonusFields (item : NormalizedItem) (candidate : SearchEntry) : Bool :=
  match spotifyIsrc item with
  | some isrc =>
    decide (isrc ≠ "") &&
      (containsSub (lowerChars isrc) (lowerChars (candidate.title.getD "")) ||
        containsSub (lowerChars isrc) (lowerChars (candidate.channel.getD "")) ||
        containsSub (lowerChars isrc) (lowerChars (candidate.uploader.getD "")))
  | none => false

/-- The code's bonus condition: the external ID appears case-insensitively
in the space-joined concatenation of title, channel and uploader. -/
def isrcBonusJoined (item : NormalizedItem) (candidate : SearchEntry) : Bool :=
  match spotifyIsrc item with
  | some isrc => decide (isrc ≠ "") && containsSub (lowerChars isrc) (joinedHaystack candidate)
  | none => false

/-- The claim's scoring formula, read literally (per-field bonus). -/
def specScore (item : NormalizedItem) (candidate : SearchEntry) : ℚ :=
  min 1 (blendOf item candidate + if isrcBonusFields item candidate then 15 / 100 else 0)

/-- The scoring formula with the bonus condition the code implements. -/
def specScoreJoined (item : NormalizedItem) (candidate : SearchEntry) : ℚ :=
  min 1 (blendOf item candidate + if isrcBonusJoined item candidate then 15 / 100 else 0)

/-! ### Bounds on the similarity machinery -/

theorem matchLen_le_left (a b : List Char) (alo blo : Nat) :
    ∀ i j, matchLen a b alo blo i j ≤ i + 1 - alo := by
  intro i
  induction i with
  | zero =>
    intro j
    rw [matchLen]
    split
    · next h => omega
    · exact Nat.zero_le _
  | succ ii ih =>
    intro j
    cases j with
    | zero =>
      rw [matchLen]
      split
      · next h => omega
      · exact Nat.zero_le _
    | succ jj =>
      rw [matchLen]
      split
      · next h =>
        have := ih jj
        omega
      · exact Nat.zero_le _

theorem matchLen_le_right (a b : List Char) (alo blo : Nat) :
    ∀ i j, matchLen a b alo blo i j ≤ j + 1 - blo := by
  intro i
  induction i with
  | zero =>
    intro j
    rw [matchLen]
    split
    · next h => omega
    · exact Nat.zero_le _
  | succ ii ih =>
    intro j
    cases j with
    | zero =>
      rw [matchLen]
      split
      · next h => omega
      · exact Nat.zero_le _
    | succ jj =>
      rw [matchLen]
      split
      · next h =>
        have := ih jj
        omega
      · exact Nat.zero_le _

/-- Validity of a best-block triple for the given ranges. -/
def flmValid (alo ahi blo bhi : Nat) (t : Nat × Nat × Nat) : Prop :=
  t.2.2 ≠ 0 → alo ≤ t.1 ∧ t.1 + t.2.2 ≤ ahi ∧ blo ≤ t.2.1 ∧ t.2.1 + t.2.2 ≤ bhi

theorem mem_lexPairs {alo ahi blo bhi : Nat} {p : Nat × Nat} (hp : p ∈ lexPairs alo ahi blo bhi) :
    alo ≤ p.1 ∧ p.1 < ahi ∧ blo ≤ p.2 ∧ p.2 < bhi := by
  rcases List.mem_flatMap.mp hp with ⟨i, hi, hmap⟩
  rcases List.mem_map.mp hmap with ⟨j, hj, rfl⟩
  rcases List.mem_range'.mp hi with ⟨ki, hki, rfl⟩
  rcases List.mem_range'.mp hj with ⟨kj, hkj, rfl⟩
  omega

theorem flmGo_valid (a b : List Char) (alo ahi blo bhi : Nat) :
    ∀ ps : List (Nat × Nat), (∀ p ∈ ps, alo ≤ p.1 ∧ p.1 < ahi ∧ blo ≤ p.2 ∧ p.2 < bhi) →
      ∀ bi bj bk, flmValid alo ahi blo bhi (bi, bj, bk) →
        flmValid alo ahi blo bhi (flmGo a b alo blo ps bi bj bk) := by
  intro ps
  induction ps with
  | nil =>
    intro _ bi bj bk h
    simpa [flmGo] using h
  | cons p rest ih =>
    intro hmem bi bj bk hinv
    rw [flmGo]
    have hp := hmem p (List.mem_cons_self p rest)
    have hrest : ∀ q ∈ rest, alo ≤ q.1 ∧ q.1 < ahi ∧ blo ≤ q.2 ∧ q.2 < bhi :=
      fun q hq => hmem q (List.mem_cons_of_mem p hq)
    split
    · next hlt =>
      apply ih hrest
      intro _
      have h1 := matchLen_le_left a b alo blo p.1 p.2
      have h2 := matchLen_le_right a b alo blo p.1 p.2
      dsimp only
      omega
    · exact ih hrest bi bj bk hinv

theorem findLongestMatch_valid (a b : List Char) (alo ahi blo bhi : Nat) :
    flmValid alo ahi blo bhi (findLongestMatch a b alo ahi blo bhi) := by
  apply flmGo_valid a b alo ahi blo bhi _ (fun p hp => mem_lexPairs hp)
  intro h
  simp at h

theorem mbSize_le_left (a b : List Char) :
    ∀ fuel alo ahi blo bhi, mbSize a b fuel alo ahi blo bhi ≤ ahi - alo := by
  intro fuel
  induction fuel with
  | zero => intro alo ahi blo bhi; simp [mbSize]
  | succ f ih =>
    intro alo ahi blo bhi
    have hv := findLongestMatch_valid a b alo ahi blo bhi
    rcases hflm : findLongestMatch a b alo ahi blo bhi with ⟨i, j, k⟩
    rw [hflm] at hv
    dsimp only [flmValid] at hv
    simp only [mbSize, hflm]
    split
    · exact Nat.zero_le _
    · next hne =>
      obtain ⟨h1, h2, h3, h4⟩ := hv hne
      have hL := ih alo i blo j
      have hR := ih (i + k) ahi (j + k) bhi
      omega

theorem mbSize_le_right (a b : List Char) :
    ∀ fuel alo ahi blo bhi, mbSize a b fuel alo ahi blo bhi ≤ bhi - blo := by
  intro fuel
  induction fuel with
  | zero => intro alo ahi blo bhi; simp [mbSize]
  | succ f ih =>
    intro alo ahi blo bhi
    have hv := findLongestMatch_valid a b alo ahi blo bhi
    rcases hflm : findLongestMatch a b alo ahi blo bhi with ⟨i, j, k⟩
    rw [hflm] at hv
    dsimp only [flmValid] at hv
    simp only [mbSize, hflm]
    split
    · exact Nat.zero_le _
    · next hne =>
      obtain ⟨h1, h2, h3, h4⟩ := hv hne
      have hL := ih alo i blo j
      have hR := ih (i + k) ahi (j + k) bhi
      omega

theorem totalMatch_le_left (a b : List Char) : totalMatch a b ≤ a.length := by
  have := mbSize_le_left a b (a.length + b.length) 0 a.length 0 b.length
  simpa [totalMatch] using this

theorem totalMatch_le_right (a b : List Char) : totalMatch a b ≤ b.length := by
  have := mbSize_le_right a b (a.length + b.length) 0 a.length 0 b.length
  simpa [totalMatch] using this

theorem ratioQ_nonneg (a b : List Char) : 0 ≤ ratioQ a b := by
  unfold ratioQ
  positivity

theorem ratioQ_le_one (a b : List Char) (ha : a ≠ []) : ratioQ a b ≤ 1 := by
  have h1 := totalMatch_le_left a b
  have h2 := totalMatch_le_right a b
  have hlen : 0 < a.length := List.length_pos.mpr ha
  have hq : (0 : ℚ) < (a.length : ℚ) + (b.length : ℚ) := by
    have hn : (0 : Nat) < a.length + b.length := by omega
    exact_mod_cast hn
  rw [ratioQ, div_le_one hq]
  have hn2 : 2 * totalMatch a b ≤ a.length + b.length := by omega
  exact_mod_cast hn2

theorem similarity_nonneg (a b : List Char) : 0 ≤ similarity a b := by
  unfold similarity
  split
  · exact le_refl 0
  · exact ratioQ_nonneg a b

theorem similarity_le_one (a b : List Char) : similarity a b ≤ 1 := by
  unfold similarity
  split
  · norm_num
  · next h =>
    push_neg at h
    exact ratioQ_le_one a b h.1

theorem containsScore_nonneg (a b : List Char) : 0 ≤ containsScore a b := by
  unfold containsScore
  split
  · exact le_refl 0
  · split <;> norm_num

theorem containsScore_le_one (a b : List Char) : containsScore a b ≤ 1 := by
  unfold containsScore
  split
  · norm_num
  · split <;> norm_num

theorem titleScoreOf_nonneg (item : NormalizedItem) (candidate : SearchEntry) :
    0 ≤ titleScoreOf item candidate :=
  similarity_nonneg _ _

theorem titleScoreOf_le_one (item : NormalizedItem) (candidate : SearchEntry) :
    titleScoreOf item candidate ≤ 1 :=
  similarity_le_one _ _

theorem artistScoreOf_nonneg (item : NormalizedItem) (candidate : SearchEntry) :
    0 ≤ artistScoreOf item candidate := by
  simp only [artistScoreOf]
  split
  · exact le_refl 0
  · exact le_trans (similarity_nonneg _ _) (le_max_left _ _)

theorem artistScoreOf_le_one (item : NormalizedItem) (candidate : SearchEntry) :
    artistScoreOf item candidate ≤ 1 := by
  simp only [artistScoreOf]
  split
  · norm_num
  · exact max_le (similarity_le_one _ _) (max_le (containsScore_le_one _ _)
      (max_le (similarity_le_one _ _) (max_le (containsScore_le_one _ _)
        (max_le (similarity_le_one _ _) (containsScore_le_one _ _)))))

theorem blendOf_nonneg (item : NormalizedItem) (candidate : SearchEntry) :
    0 ≤ blendOf item candidate := by
  have ht := titleScoreOf_nonneg item candidate
  have ha := artistScoreOf_nonneg item candidate
  unfold blendOf
  split
  · exact add_nonneg (add_nonneg (mul_nonneg (by norm_num) ht) (mul_nonneg (by norm_num) ha))
      (mul_nonneg (by norm_num) (le_max_left 0 _))
  · exact add_nonneg (mul_nonneg (by norm_num) ht) (mul_nonneg (by norm_num) ha)

theorem durScore_nonneg (d cd : ℤ) : (0 : ℚ) ≤ max 0 (1 - ((|d - cd| : ℤ) : ℚ) / 30) :=
  le_max_left _ _

theorem durScore_le_one (d cd : ℤ) : max 0 (1 - ((|d - cd| : ℤ) : ℚ) / 30) ≤ 1 := by
  apply max_le (by norm_num)
  have h : (0 : ℚ) ≤ ((|d - cd| : ℤ) : ℚ) / 30 := by positivity
  linarith

theorem blendOf_le_one (item : NormalizedItem) (candidate : SearchEntry) :
    blendOf item candidate ≤ 1 := by
  have ht1 := titleScoreOf_le_one item candidate
  have ha1 := artistScoreOf_le_one item candidate
  have ht0 := titleScoreOf_nonneg item candidate
  have ha0 := artistScoreOf_nonneg item candidate
  unfold blendOf
  split
  · refine le_trans (add_le_add (add_le_add (mul_le_mul_of_nonneg_left ht1 (by norm_num))
      (mul_le_mul_of_nonneg_left ha1 (by norm_num)))
      (mul_le_mul_of_nonneg_left (durScore_le_one _ _) (by norm_num))) (by norm_num)
  · refine le_trans (add_le_add (mul_le_mul_of_nonneg_left ht1 (by norm_num))
      (mul_le_mul_of_nonneg_left ha1 (by norm_num))) (by norm_num)

/-- The code's score agrees everywhere with the spec formula built on the
joined-haystack bonus condition. -/
theorem scoreCandidate_eq_specScoreJoined (item : NormalizedItem) (candidate : SearchEntry) :
    scoreCandidate item candidate = specScoreJoined item candidate := by
  rcases h : spotifyIsrc item with _ | isrc <;>
    simp only [scoreCandidate, specScoreJoined, isrcBonusJoined, blendOf, titleScoreOf,
      artistScoreOf, h, Bool.and_eq_true, decide_eq_true_eq]
  · simp
  · by_cases hc : isrc ≠ "" ∧ containsSub (lowerChars isrc) (joinedHaystack candidate) = true
    · simp [hc]
    · simp [hc]

/-- Evaluation helper: unfold `similarity` on concrete data. -/
theorem similarity_eval (a b : List Char) (m la lb : Nat) (hM : totalMatch a b = m)
    (hla : a.length = la) (hlb : b.length = lb) (hne : ¬(a = [] ∨ b = [])) :
    similarity a b = (2 * m : ℚ) / ((la : ℚ) + (lb : ℚ)) := by
  rw [similarity, if_neg hne, ratioQ, hM, hla, hlb]

/-! ### Claim C1 -/

/-- A wanted item whose Spotify ISRC contains a space. -/
def itemSpacedIsrc : NormalizedItem :=
  ⟨Provider.spotify, some "song", none, none, some ⟨some ⟨some "a b"⟩⟩⟩

/-- A candidate where the spaced ID straddles the title/channel boundary of
the joined haystack ("xa" ++ " " ++ "bx" contains "a b") while no single
field contains it. -/
def candSplitIsrc : SearchEntry :=
  ⟨none, none, some "xa", some "bx", none, none⟩

theorem sim_song_xa : similarity (normText "song") (normText "xa") = 0 := by
  have h := similarity_eval (normText "song") (normText "xa") 0 4 2
    (by decide) (by decide) (by decide) (by decide)
  rw [h]; norm_num

theorem scoreCandidate_at_split_isrc : scoreCandidate itemSpacedIsrc candSplitIsrc = 15 / 100 := by
  have hisrc : spotifyIsrc itemSpacedIsrc = some "a b" := by decide
  have hsub : containsSub (lowerChars "a b") (joinedHaystack candSplitIsrc) = true := by decide
  have hempty : normText "" = [] := by decide
  have h1 : itemSpacedIsrc.title = some "song" := rfl
  have h2 : itemSpacedIsrc.artist = none := rfl
  have h3 : itemSpacedIsrc.durationSeconds = none := rfl
  have h4 : candSplitIsrc.title = some "xa" := rfl
  have h5 : candSplitIsrc.channel = some "bx" := rfl
  have h6 : candSplitIsrc.uploader = none := rfl
  have h7 : candSplitIsrc.duration = none := rfl
  simp [scoreCandidate, h1, h2, h3, h4, h5, h6, h7, hisrc, hsub, hempty, sim_song_xa]
  norm_num [min_def]

theorem specScore_at_split_isrc : specScore itemSpacedIsrc candSplitIsrc = 0 := by
  have hfields : isrcBonusFields itemSpacedIsrc candSplitIsrc = false := by decide
  have hempty : normText "" = [] := by decide
  have h1 : itemSpacedIsrc.title = some "song" := rfl
  have h2 : itemSpacedIsrc.artist = none := rfl
  have h3 : itemSpacedIsrc.durationSeconds = none := rfl
  have h4 : candSplitIsrc.title = some "xa" := rfl
  have h7 : candSplitIsrc.duration = none := rfl
  simp [specScore, blendOf, titleScoreOf, artistScoreOf, hfields, h1, h2, h3, h4, h7,
    hempty, sim_song_xa]

/-- C1 (counterexample): on a wanted item carrying external catalog ID
"a b" and a candidate with title "xa", channel "bx", the code adds the
+0.15 bonus (the ID appears in the space-joined haystack) although the ID
is not a substring of the title, the channel or the uploader, so the score
is not the claimed formula: the code yields 0.15 where the claim's formula
yields 0. -/
theorem scoreCandidate_fieldwise_counterexample :
    scoreCandidate itemSpacedIsrc candSplitIsrc ≠ specScore itemSpacedIsrc candSplitIsrc := by
  rw [scoreCandidate_at_split_isrc, specScore_at_split_isrc]
  norm_num

/-- C1 (amended): for every wanted item and candidate the score is exactly
the specified weighted blend — `0.45*titleScore + 0.35*artistScore +
0.20*max 0 (1 - |Δ|/30)` when both durations are known and
`0.7*titleScore + 0.3*artistScore` otherwise — plus a flat +0.15 bonus
when the wanted item's external catalog ID appears case-insensitively in
the space-joined concatenation of the candidate's title, channel and
uploader (rather than in one of the three fields taken separately; the two
conditions agree whenever the ID contains no space), clamped to at most
1.0; the result is always in [0, 1] and is a pure function of its
inputs. -/
theorem scoreCandidate_spec (item : NormalizedItem) (candidate : SearchEntry) :
    scoreCandidate item candidate = specScoreJoined item candidate ∧
      0 ≤ scoreCandidate item candidate ∧ scoreCandidate item candidate ≤ 1 := by
  refine ⟨scoreCandidate_eq_specScoreJoined item candidate, ?_, ?_⟩
  · rw [scoreCandidate_eq_specScoreJoined, specScoreJoined]
    refine le_min (by norm_num) (add_nonneg (blendOf_nonneg _ _) ?_)
    split <;> norm_num
  · rw [scoreCandidate_eq_specScoreJoined, specScoreJoined]
    exact min_le_left _ _

/-! ### Claim C9 -/

/-- The wanted item of the spec's ranking scenario. -/
def wantedTMA : NormalizedItem :=
  ⟨Provider.spotify, some "Tear Me Apart", some "Concernn", some 180, none⟩

/-- Candidate A of the scenario. -/
def candConcernnAudio : SearchEntry :=
  ⟨none, none, some "Concernn - Tear Me Apart (Audio)", some "Concernn", none, some 181⟩

/-- Candidate B of the scenario. -/
def candRandomUploader : SearchEntry :=
  ⟨none, none, some "Tear Me Apart", some "RandomUploader", none, some 180⟩

/-- C9: for the wanted item (title "Tear Me Apart", artist "Concernn",
duration 180), candidate A (title "Concernn - Tear Me Apart (Audio)",
channel "Concernn", duration 181) scores strictly higher than candidate B
(title "Tear Me Apart", channel "RandomUploader", duration 180). -/
theorem score_ordering_example :
    scoreCandidate wantedTMA candConcernnAudio > scoreCandidate wantedTMA candRandomUploader := by
  have hA1 : similarity (normText "Tear Me Apart") (normText "Concernn - Tear Me Apart (Audio)") = 26 / 41 := by
    have h := similarity_eval (normText "Tear Me Apart") (normText "Concernn - Tear Me Apart (Audio)") 13 13 28 (by decide) (by decide) (by decide) (by decide)
    rw [h]; norm_num
  have hA2 : similarity (normText "Concernn") (normText "Concernn") = 1 := by
    have h := similarity_eval (normText "Concernn") (normText "Concernn") 8 8 8 (by decide) (by decide) (by decide) (by decide)
    rw [h]; norm_num
  have hA3 : containsScore (normText "Concernn") (normText "Concernn") = 1 := by decide
  have hA4 : similarity (normText "Concernn") (normText "") = 0 := by decide
  have hA5 : containsScore (normText "Concernn") (normText "") = 0 := by decide
  have hA6 : similarity (normText "Concernn") (normText "Concernn - Tear Me Apart (Audio)") = 4 / 9 := by
    have h := similarity_eval (normText "Concernn") (normText "Concernn - Tear Me Apart (Audio)") 8 8 28 (by decide) (by decide) (by decide) (by decide)
    rw [h]; norm_num
  have hA7 : containsScore (normText "Concernn") (normText "Concernn - Tear Me Apart (Audio)") = 1 := by decide
  have hB1 : similarity (normText "Tear Me Apart") (normText "Tear Me Apart") = 1 := by
    have h := similarity_eval (normText "Tear Me Apart") (normText "Tear Me Apart") 13 13 13 (by decide) (by decide) (by decide) (by decide)
    rw [h]; norm_num
  have hB2 : similarity (normText "Concernn") (normText "RandomUploader") = 3 / 11 := by
    have h := similarity_eval (normText "Concernn") (normText "RandomUploader") 3 8 14 (by decide) (by decide) (by decide) (by decide)
    rw [h]; norm_num
  have hB3 : containsScore (normText "Concernn") (normText "RandomUploader") = 0 := by decide
  have hB6 : similarity (normText "Concernn") (normText "Tear Me Apart") = 4 / 21 := by
    have h := similarity_eval (normText "Concernn") (normText "Tear Me Apart") 2 8 13 (by decide) (by decide) (by decide) (by decide)
    rw [h]; norm_num
  have hB7 : containsScore (normText "Concernn") (normText "Tear Me Apart") = 0 := by decide
  have hartist : ¬ (normText "Concernn" = []) := by decide
  have hno : spotifyIsrc wantedTMA = none := rfl
  have w1 : wantedTMA.title = some "Tear Me Apart" := rfl
  have w2 : wantedTMA.artist = some "Concernn" := rfl
  have w3 : wantedTMA.durationSeconds = some 180 := rfl
  have a1 : candConcernnAudio.title = some "Concernn - Tear Me Apart (Audio)" := rfl
  have a2 : candConcernnAudio.channel = some "Concernn" := rfl
  have a3 : candConcernnAudio.uploader = none := rfl
  have a4 : candConcernnAudio.duration = some 181 := rfl
  have b1 : candRandomUploader.title = some "Tear Me Apart" := rfl
  have b2 : candRandomUploader.channel = some "RandomUploader" := rfl
  have b3 : candRandomUploader.uploader = none := rfl
  have b4 : candRandomUploader.duration = some 180 := rfl
  simp only [scoreCandidate, hno, w1, w2, w3, a1, a2, a3, a4, b1, b2, b3, b4,
    Option.getD_some, Option.getD_none, hA1, hA2, hA3, hA4, hA5, hA6, hA7, hB1, hB2, hB3,
    hB6, hB7, hartist, if_false, ite_false]
  norm_num [max_def, min_def]

/-! ### Resolver ranking (`resolver._resolve_candidates_from_search`) -/

/-- Embedding of `resolver._entry_url`. -/
def entryUrl (provider : Provider) (e : SearchEntry) : Option String :=
  match pyOr e.webpageUrl e.url with
  | none => none
  | some u =>
    if u = "" then none
    else if provider = Provider.youtube ∧ ¬ containsSub "://".toList u.toList then
      some ("https://www.youtube.com/watch?v=" ++ u)
    else some u

/-- Embedding of `resolver._duration_hint`. -/
def durationHint (expected actual : Option Int) : Option String :=
  match expected, actual with
  | some e, some a =>
    some ("duration delta " ++ (if a - e ≥ 0 then "+" else "") ++ toString (a - e) ++ "s")
  | _, _ => none

/-- The `ResolvedSource` built for one deduplicated `(url, entry)` pair. -/
def mkSource (item : NormalizedItem) (provider : Provider) (url : String) (e : SearchEntry) :
    ResolvedSource :=
  { url := url
    provider := provider
    confidence := scoreCandidate item e
    confidenceHint := durationHint item.durationSeconds e.duration
    selectedTitle := e.title
    selectedChannel := pyOr e.channel e.uploader }

/-- One `deduped[url] = e` assignment: a Python dict keeps the position of
the first insertion of a key but overwrites its value. -/
def dictUpsert (m : List (String × SearchEntry)) (k : String) (v : SearchEntry) :
    List (String × SearchEntry) :=
  if m.any (fun p => p.1 == k) then m.map (fun p => if p.1 == k then (p.1, v) else p)
  else m ++ [(k, v)]

/-- The dedup loop over the raw entries. -/
def dedupeEntries (provider : Provider) (entries : List SearchEntry) :
    List (String × SearchEntry) :=
  entries.foldl (fun m e =>
    match entryUrl provider e with
    | none => m
    | some u => dictUpsert m u e) []

/-- Stable descending insertion by confidence: an element is placed after
every earlier element with strictly greater or equal confidence only when
greater, i.e. before the first element of smaller-or-equal confidence it
does not beat — matching Python's stable `sort(reverse=True)`. -/
def insertDesc (x : ResolvedSource) : List ResolvedSource → List ResolvedSource
  | [] => [x]
  | y :: ys => if x.confidence < y.confidence then y :: insertDesc x ys else x :: y :: ys

/-- Stable descending sort by confidence. -/
def sortDesc : List ResolvedSource → List ResolvedSource
  | [] => []
  | x :: xs => insertDesc x (sortDesc xs)

/-- The post-search part of `_resolve_candidates_from_search`: dedup by
resolved url, score, sort descending by confidence (stable), truncate. -/
def rankEntries (item : NormalizedItem) (provider : Provider) (limit : Nat)
    (entries : List SearchEntry) : List ResolvedSource :=
  (sortDesc ((dedupeEntries provider entries).map (fun p => mkSource item provider p.1 p.2))).take limit

/-- The query base `" - ".join(truthy parts of [artist, title])`. -/
def baseQueryOf (item : NormalizedItem) : String :=
  String.intercalate " - " (([item.artist, item.title].filterMap id).filter (fun s => !(s == "")))

/-- The one or two search queries issued by the code. -/
def searchQueriesFor (pfx : String) (limit : Nat) (baseQuery : String) (isrc : Option String) :
    List String :=
  (match isrc with
   | some s => if s ≠ "" then [pfx ++ toString (max limit 5) ++ ":" ++ baseQuery ++ " " ++ s] else []
   | none => []) ++ [pfx ++ toString (max limit 5) ++ ":" ++ baseQuery]

/-- Running the queries against the search backend, concatenating the
entries; the first backend failure aborts the whole search (the code wraps
the loop in one `try`). -/
def gatherEntries (search : String → Except String (List SearchEntry)) :
    List String → Except String (List SearchEntry)
  | [] => .ok []
  | q :: rest =>
    match search q with
    | .error e => .error e
    | .ok es =>
      match gatherEntries search rest with
      | .error e => .error e
      | .ok more => .ok (es ++ more)

/-- Embedding of `_resolve_candidates_from_search`, with the yt-dlp search
backend abstracted as a function from query strings to entries. -/
def resolveCandidatesFromSearch (item : NormalizedItem) (provider : Provider) (pfx : String)
    (limit : Nat) (search : String → Except String (List SearchEntry)) :
    Except RipErr (List ResolvedSource) :=
  if item.title.getD "" = "" then
    .error ⟨"Spotify item is missing title; cannot resolve.", some "Resolve"⟩
  else
    match gatherEntries search (searchQueriesFor pfx limit (baseQueryOf item) (spotifyIsrc item)) with
    | .error e =>
      .error ⟨(if provider = Provider.youtube then "YouTube" else "SoundCloud") ++
        " search failed: " ++ e, some "Resolve"⟩
    | .ok entries =>
      if entries.isEmpty then .ok []
      else .ok (rankEntries item provider limit entries)

/-- Embedding of `resolver.resolve_candidates` (provider gate, then
dispatch on the preferred backend). -/
def resolveCandidates (item : NormalizedItem) (preferred : Provider) (limit : Nat)
    (search : Provider → String → Except String (List SearchEntry)) :
    Except RipErr (List ResolvedSource) :=
  if item.provider ≠ Provider.spotify then
    .error ⟨"Resolver is only used for Spotify items in v1.", some "Resolve"⟩
  else if preferred = Provider.youtube then
    resolveCandidatesFromSearch item Provider.youtube "ytsearch" limit (search Provider.youtube)
  else if preferred = Provider.soundcloud then
    resolveCandidatesFromSearch item Provider.soundcloud "scsearch" limit (search Provider.soundcloud)
  else
    .error ⟨"Unsupported resolver provider: " ++ providerName preferred, some "Resolve"⟩

/-- Embedding of `resolver.resolve` (via `_resolve_spotify_to_youtube` and
`_resolve_spotify_to_soundcloud`). -/
def resolve (item : NormalizedItem) (preferred : Provider)
    (search : Provider → String → Except String (List SearchEntry)) :
    Except RipErr ResolvedSource :=
  if item.provider ≠ Provider.spotify then
    .error ⟨"Resolver is only used for Spotify items in v1.", some "Resolve"⟩
  else if preferred = Provider.youtube then
    match resolveCandidates item Provider.youtube 5 search with
    | .error e => .error e
    | .ok [] => .error ⟨"No YouTube candidates found.", some "Resolve"⟩
    | .ok (c :: _) => .ok c
  else if preferred = Provider.soundcloud then
    match resolveCandidates item Provider.soundcloud 5 search with
    | .error e => .error e
    | .ok [] => .error ⟨"No SoundCloud candidates found.", some "Resolve"⟩
    | .ok (c :: _) => .ok c
  else
    .error ⟨"Unsupported resolver provider: " ++ providerName preferred, some "Resolve"⟩

/-! ### Declarative description of the dedup step -/

/-- Deduplicate a key list keeping first occurrences, in order. -/
def firstKeys : List String → List String
  | [] => []
  | k :: ks => k :: (firstKeys ks).filter (fun x => !(x == k))

/-- The last entry of the list whose resolved url is `k`. -/
def lastValueFor (provider : Provider) (entries : List SearchEntry) (k : String) :
    Option SearchEntry :=
  (entries.filter (fun e => entryUrl provider e == some k)).getLast?

/-- Candidates with a given confidence, in order. -/
def filterConf (q : ℚ) (l : List ResolvedSource) : List ResolvedSource :=
  l.filter (fun s => decide (s.confidence = q))

/-- Modelled from the claim's words: a dedup in which the first occurrence
of a url wins outright (later duplicates are ignored entirely). -/
def dictInsertFirstWins (m : List (String × SearchEntry)) (k : String) (v : SearchEntry) :
    List (String × SearchEntry) :=
  if m.any (fun p => p.1 == k) then m else m ++ [(k, v)]

/-- Modelled from the claim's words: dedup with first occurrence winning. -/
def dedupeFirstWins (provider : Provider) (entries : List SearchEntry) :
    List (String × SearchEntry) :=
  entries.foldl (fun m e =>
    match entryUrl provider e with
    | none => m
    | some u => dictInsertFirstWins m u e) []

/-- Modelled from the claim's words: the ranking pipeline with a
first-occurrence-wins dedup. -/
def rankEntriesFirstWins (item : NormalizedItem) (provider : Provider) (limit : Nat)
    (entries : List SearchEntry) : List ResolvedSource :=
  (sortDesc ((dedupeFirstWins provider entries).map (fun p => mkSource item provider p.1 p.2))).take limit

/-! ### Lemmas about the dedup loop -/

theorem dedupeEntries_snoc (provider : Provider) (es : List SearchEntry) (e : SearchEntry) :
    dedupeEntries provider (es ++ [e]) =
      match entryUrl provider e with
      | none => dedupeEntries provider es
      | some u => dictUpsert (dedupeEntries provider es) u e := by
  unfold dedupeEntries
  rw [List.foldl_append]
  rfl

theorem dedupeEntries_snoc_none {provider : Provider} {e : SearchEntry}
    (hurl : entryUrl provider e = none) (es : List SearchEntry) :
    dedupeEntries provider (es ++ [e]) = dedupeEntries provider es := by
  rw [dedupeEntries_snoc, hurl]

theorem dedupeEntries_snoc_some {provider : Provider} {e : SearchEntry} {u : String}
    (hurl : entryUrl provider e = some u) (es : List SearchEntry) :
    dedupeEntries provider (es ++ [e]) = dictUpsert (dedupeEntries provider es) u e := by
  rw [dedupeEntries_snoc, hurl]

theorem firstKeys_snoc (us : List String) (u : String) :
    firstKeys (us ++ [u]) = if u ∈ us then firstKeys us else firstKeys us ++ [u] := by
  induction us with
  | nil => simp [firstKeys]
  | cons k ks ih =>
    simp only [List.cons_append, firstKeys, List.append_eq] at ih ⊢
    rw [ih]
    by_cases hu : u ∈ ks
    · rw [if_pos hu, if_pos (List.mem_cons_of_mem k hu)]
    · rw [if_neg hu]
      by_cases huk : u = k
      · have hmem : u ∈ k :: ks := by rw [huk]; exact List.mem_cons_self k ks
        rw [if_pos hmem, List.filter_append]
        simp [huk]
      · have hmem : u ∉ k :: ks := by
          intro hc
          rcases List.mem_cons.mp hc with h | h
          · exact huk h
          · exact hu h
        rw [if_neg hmem, List.filter_append]
        simp [huk]

theorem mem_firstKeys {u : String} : ∀ {us : List String}, u ∈ firstKeys us ↔ u ∈ us := by
  intro us
  induction us with
  | nil => simp [firstKeys]
  | cons k ks ih =>
    by_cases h : u = k
    · simp [firstKeys, h]
    · simp [firstKeys, List.mem_filter, ih, h]

theorem any_key_iff (m : List (String × SearchEntry)) (u : String) :
    (m.any (fun p => p.1 == u) = true) ↔ u ∈ m.map Prod.fst := by
  simp [List.any_eq_true, List.mem_map, beq_iff_eq]

theorem lastValueFor_snoc_none {provider : Provider} {e : SearchEntry}
    (hnone : entryUrl provider e = none) (es : List SearchEntry) (k : String) :
    lastValueFor provider (es ++ [e]) k = lastValueFor provider es k := by
  unfold lastValueFor
  rw [List.filter_append]
  simp [hnone]

theorem lastValueFor_snoc_eq {provider : Provider} {e : SearchEntry} {u : String}
    (hu : entryUrl provider e = some u) (es : List SearchEntry) :
    lastValueFor provider (es ++ [e]) u = some e := by
  unfold lastValueFor
  rw [List.filter_append]
  simp [hu, List.getLast?_concat]

theorem lastValueFor_snoc_ne {provider : Provider} {e : SearchEntry} {u k : String}
    (hu : entryUrl provider e = some u) (hk : k ≠ u) (es : List SearchEntry) :
    lastValueFor provider (es ++ [e]) k = lastValueFor provider es k := by
  unfold lastValueFor
  rw [List.filter_append]
  have : ((entryUrl provider e == some k) : Bool) = false := by
    simp [hu, (Ne.symm hk)]
  simp [this]

/-- The keys of the dedup map are the urls in order of first occurrence. -/
theorem dedupe_keys (provider : Provider) (entries : List SearchEntry) :
    (dedupeEntries provider entries).map Prod.fst =
      firstKeys (entries.filterMap (entryUrl provider)) := by
  induction entries using List.reverseRecOn with
  | nil => rfl
  | append_singleton es e ih =>
    rw [dedupeEntries_snoc, List.filterMap_append]
    rcases hurl : entryUrl provider e with _ | u
    · simpa [hurl] using ih
    · simp only [hurl, List.filterMap_cons, List.filterMap_nil]
      unfold dictUpsert
      split
      · next hmem =>
        have hu_mem : u ∈ es.filterMap (entryUrl provider) := by
          rw [← mem_firstKeys, ← ih]
          exact (any_key_iff _ _).mp hmem
        rw [firstKeys_snoc, if_pos hu_mem, List.map_map]
        have hfst : ∀ p ∈ dedupeEntries provider es,
            (Prod.fst ∘ fun p => if (p.1 == u) = true then (p.1, e) else p) p = Prod.fst p := by
          intro p _
          by_cases h : p.1 = u <;> simp [h]
        rw [List.map_congr_left hfst]
        exact ih
      · next hmem =>
        have hu_not : u ∉ es.filterMap (entryUrl provider) := by
          intro hc
          apply hmem
          apply (any_key_iff _ _).mpr
          rw [ih]
          exact mem_firstKeys.mpr hc
        rw [firstKeys_snoc, if_neg hu_not, List.map_append, ih]
        rfl

/-- Every pair of the dedup map carries the last entry seen for its url. -/
theorem dedupe_values (provider : Provider) (entries : List SearchEntry) :
    ∀ pr ∈ dedupeEntries provider entries,
      lastValueFor provider entries pr.1 = some pr.2 := by
  induction entries using List.reverseRecOn with
  | nil => intro pr hpr; simp [dedupeEntries] at hpr
  | append_singleton es e ih =>
    intro pr hpr
    rcases hurl : entryUrl provider e with _ | u
    · rw [dedupeEntries_snoc_none hurl] at hpr
      rw [lastValueFor_snoc_none hurl]
      exact ih pr hpr
    · rw [dedupeEntries_snoc_some hurl] at hpr
      unfold dictUpsert at hpr
      split at hpr
      · rcases List.mem_map.mp hpr with ⟨q, hq, rfl⟩
        by_cases hqu : q.1 = u
        · have hqb : (q.1 == u) = true := beq_iff_eq.mpr hqu
          rw [if_pos hqb]
          show lastValueFor provider (es ++ [e]) q.1 = some e
          rw [hqu]
          exact lastValueFor_snoc_eq hurl es
        · have hqb : ¬ (q.1 == u) = true := fun hb => hqu (beq_iff_eq.mp hb)
          rw [if_neg hqb]
          rw [lastValueFor_snoc_ne hurl hqu]
          exact ih q hq
      · next hmem =>
        rcases List.mem_append.mp hpr with h | h
        · have hkey : pr.1 ≠ u := by
            intro hequ
            exact hmem ((List.any_eq_true).mpr ⟨pr, h, beq_iff_eq.mpr hequ⟩)
          rw [lastValueFor_snoc_ne hurl hkey]
          exact ih pr h
        · have hpe : pr = (u, e) := by simpa using h
          subst hpe
          exact lastValueFor_snoc_eq hurl es

/-! ### Lemmas about the stable descending sort -/

theorem mem_insertDesc {x y : ResolvedSource} :
    ∀ {l : List ResolvedSource}, y ∈ insertDesc x l ↔ y = x ∨ y ∈ l := by
  intro l
  induction l with
  | nil => simp [insertDesc]
  | cons z zs ih =>
    rw [insertDesc]
    split
    · simp only [List.mem_cons, ih]
      tauto
    · simp [List.mem_cons]

theorem mem_sortDesc {y : ResolvedSource} : ∀ {l : List ResolvedSource}, y ∈ sortDesc l ↔ y ∈ l := by
  intro l
  induction l with
  | nil => simp [sortDesc]
  | cons x xs ih =>
    rw [sortDesc, mem_insertDesc]
    simp [ih]

theorem chain_insertDesc {x : ResolvedSource} {l : List ResolvedSource}
    (h : List.Chain' (fun u v => v.confidence ≤ u.confidence) l) :
    List.Chain' (fun u v => v.confidence ≤ u.confidence) (insertDesc x l) := by
  induction l with
  | nil => simp [insertDesc]
  | cons y ys ih =>
    rw [insertDesc]
    split
    · next hlt =>
      refine List.chain'_cons'.mpr ⟨?_, ih h.tail⟩
      intro z hz
      cases ys with
      | nil =>
        simp [insertDesc] at hz
        subst hz
        exact le_of_lt hlt
      | cons w ws =>
        rw [insertDesc] at hz
        split at hz
        · simp at hz
          subst hz
          exact (List.chain'_cons.mp h).1
        · simp at hz
          subst hz
          exact le_of_lt hlt
    · next hge =>
      exact List.chain'_cons.mpr ⟨le_of_not_lt hge, h⟩

theorem chain_sortDesc (l : List ResolvedSource) :
    List.Chain' (fun u v => v.confidence ≤ u.confidence) (sortDesc l) := by
  induction l with
  | nil => simp [sortDesc]
  | cons x xs ih =>
    rw [sortDesc]
    exact chain_insertDesc ih

theorem filterConf_cons (q : ℚ) (y : ResolvedSource) (l : List ResolvedSource) :
    filterConf q (y :: l) = if y.confidence = q then y :: filterConf q l else filterConf q l := by
  by_cases h : y.confidence = q <;> simp [filterConf, List.filter_cons, h]

theorem filterConf_insertDesc (q : ℚ) (x : ResolvedSource) (l : List ResolvedSource) :
    filterConf q (insertDesc x l) =
      if x.confidence = q then x :: filterConf q l else filterConf q l := by
  induction l with
  | nil =>
    rw [insertDesc, filterConf_cons]
  | cons y ys ih =>
    rw [insertDesc]
    split
    · next hlt =>
      rw [filterConf_cons, ih, filterConf_cons]
      have hxy : x.confidence ≠ y.confidence := ne_of_lt hlt
      by_cases hy : y.confidence = q
      · have hx : ¬ x.confidence = q := fun hq => hxy (by rw [hq, hy])
        simp [hy, hx]
      · simp [hy]
    · rw [filterConf_cons]

theorem filterConf_sortDesc (q : ℚ) : ∀ l : List ResolvedSource,
    filterConf q (sortDesc l) = filterConf q l := by
  intro l
  induction l with
  | nil => rfl
  | cons x xs ih =>
    rw [sortDesc, filterConf_insertDesc, filterConf_cons, ih]

theorem scoreCandidate_nonneg (item : NormalizedItem) (candidate : SearchEntry) :
    0 ≤ scoreCandidate item candidate := by
  rw [scoreCandidate_eq_specScoreJoined, specScoreJoined]
  refine le_min (by norm_num) (add_nonneg (blendOf_nonneg _ _) ?_)
  split <;> norm_num

theorem scoreCandidate_le_one (item : NormalizedItem) (candidate : SearchEntry) :
    scoreCandidate item candidate ≤ 1 := by
  rw [scoreCandidate_eq_specScoreJoined, specScoreJoined]
  exact min_le_left _ _

/-! ### Claim C2 -/

/-- C2 (amended): the candidate ranking deduplicates raw hits by resolved
URL where the first occurrence fixes the position in discovery order but
the last occurrence's record is the one kept and scored (a Python dict
assignment overwrites the stored value in place), scores each
deduplicated record, sorts descending by confidence with a stable sort
(equal confidences keep their discovery order, stated as: the ranked list
restricted to any one confidence value is a prefix of the scored list in
discovery order restricted to that value), truncates to at most `limit`
entries, and every returned confidence lies in [0, 1]. -/
theorem rankEntries_spec (item : NormalizedItem) (provider : Provider) (limit : Nat)
    (entries : List SearchEntry) :
    rankEntries item provider limit entries =
        (sortDesc ((dedupeEntries provider entries).map
          (fun p => mkSource item provider p.1 p.2))).take limit
      ∧ (dedupeEntries provider entries).map Prod.fst =
          firstKeys (entries.filterMap (entryUrl provider))
      ∧ (∀ pr ∈ dedupeEntries provider entries,
          lastValueFor provider entries pr.1 = some pr.2)
      ∧ List.Chain' (fun u v => v.confidence ≤ u.confidence)
          (rankEntries item provider limit entries)
      ∧ (∀ q : ℚ, filterConf q (rankEntries item provider limit entries) <+:
          filterConf q ((dedupeEntries provider entries).map
            (fun p => mkSource item provider p.1 p.2)))
      ∧ (rankEntries item provider limit entries).length ≤ limit
      ∧ (∀ s ∈ rankEntries item provider limit entries,
          0 ≤ s.confidence ∧ s.confidence ≤ 1) := by
  refine ⟨rfl, dedupe_keys provider entries, dedupe_values provider entries, ?_, ?_, ?_, ?_⟩
  · exact (chain_sortDesc _).take _
  · intro q
    have h1 : filterConf q ((sortDesc ((dedupeEntries provider entries).map
          (fun p => mkSource item provider p.1 p.2))).take limit) <+:
        filterConf q (sortDesc ((dedupeEntries provider entries).map
          (fun p => mkSource item provider p.1 p.2))) := by
      unfold filterConf
      exact List.IsPrefix.filter _ (List.take_prefix _ _)
    rw [filterConf_sortDesc] at h1
    exact h1
  · exact List.length_take_le _ _
  · intro s hs
    have hmem : s ∈ sortDesc ((dedupeEntries provider entries).map
        (fun p => mkSource item provider p.1 p.2)) := List.mem_of_mem_take hs
    rw [mem_sortDesc] at hmem
    rcases List.mem_map.mp hmem with ⟨pr, hpr, rfl⟩
    exact ⟨scoreCandidate_nonneg item pr.2, scoreCandidate_le_one item pr.2⟩

/-- A wanted item used in the C2 counterexample. -/
def itemSong : NormalizedItem := ⟨Provider.spotify, some "song", none, none, none⟩

/-- First raw hit for url "u": its title matches the wanted title. -/
def entryGood : SearchEntry := ⟨some "u", none, some "song", none, none, none⟩

/-- Second raw hit for the same url "u": a different title. -/
def entryBad : SearchEntry := ⟨some "u", none, some "zzz", none, none, none⟩

/-- C2 (counterexample): on two raw hits with the same resolved URL the
code keeps and scores the LAST duplicate's record, not the first: with
hits `[{url "u", title "song"}, {url "u", title "zzz"}]` the ranked list
differs from the one produced by a first-occurrence-wins dedup (the kept
candidate carries title "zzz", not "song"). -/
theorem rankEntries_firstWins_counterexample :
    rankEntries itemSong Provider.soundcloud 5 [entryGood, entryBad] ≠
      rankEntriesFirstWins itemSong Provider.soundcloud 5 [entryGood, entryBad] := by
  intro h
  have h2 := congrArg (fun l => l.map (fun s => s.selectedTitle)) h
  simp [rankEntries, rankEntriesFirstWins, dedupeEntries, dedupeFirstWins, dictUpsert,
    dictInsertFirstWins, entryUrl, pyOr, sortDesc, insertDesc, mkSource, itemSong,
    entryGood, entryBad] at h2

/-- C2 (witness): the bounds conjunct of `rankEntries_spec` applied to a
concrete ranked candidate. -/
theorem rankEntries_spec_witness :
    0 ≤ (mkSource itemSong Provider.soundcloud "u" entryBad).confidence ∧
      (mkSource itemSong Provider.soundcloud "u" entryBad).confidence ≤ 1 := by
  apply (rankEntries_spec itemSong Provider.soundcloud 5 [entryGood, entryBad]).2.2.2.2.2.2
  simp [rankEntries, dedupeEntries, dictUpsert, entryUrl, pyOr, sortDesc, insertDesc,
    itemSong, entryGood, entryBad]

/-! ### Claims C8 and C10 -/

/-- C8: a wanted item with an empty or missing title makes
`resolve_candidates` fail with a `ResolveError` (stage "Resolve") before
any catalog search call is made: the same error comes back whatever the
search backend does. -/
theorem resolveCandidates_missing_title (item : NormalizedItem) (preferred : Provider)
    (limit : Nat) (htitle : item.title.getD "" = "") :
    ∃ e : RipErr, e.stage = some "Resolve" ∧
      ∀ search : Provider → String → Except String (List SearchEntry),
        resolveCandidates item preferred limit search = .error e := by
  by_cases hprov : item.provider = Provider.spotify
  · by_cases hy : preferred = Provider.youtube
    · refine ⟨⟨"Spotify item is missing title; cannot resolve.", some "Resolve"⟩, rfl, ?_⟩
      intro search
      simp [resolveCandidates, hprov, hy, resolveCandidatesFromSearch, htitle]
    · by_cases hs : preferred = Provider.soundcloud
      · refine ⟨⟨"Spotify item is missing title; cannot resolve.", some "Resolve"⟩, rfl, ?_⟩
        intro search
        simp [resolveCandidates, hprov, hy, hs, resolveCandidatesFromSearch, htitle]
      · refine ⟨⟨"Unsupported resolver provider: " ++ providerName preferred, some "Resolve"⟩,
          rfl, ?_⟩
        intro search
        simp [resolveCandidates, hprov, hy, hs]
  · refine ⟨⟨"Resolver is only used for Spotify items in v1.", some "Resolve"⟩, rfl, ?_⟩
    intro search
    simp [resolveCandidates, hprov]

/-- A Spotify wanted item with no title at all. -/
def itemNoTitle : NormalizedItem := ⟨Provider.spotify, none, none, none, none⟩

/-- C8 (witness): the theorem applied to a concrete title-less item. -/
theorem resolveCandidates_missing_title_witness :
    ∃ e : RipErr, e.stage = some "Resolve" ∧
      ∀ search : Provider → String → Except String (List SearchEntry),
        resolveCandidates itemNoTitle Provider.youtube 5 search = .error e :=
  resolveCandidates_missing_title itemNoTitle Provider.youtube 5 (by decide)

/-- C10: for every wanted item whose provider is not Spotify, both
`resolve` and `resolve_candidates` fail immediately with the provider-gate
`ResolveError` tagged stage "Resolve", independently of the search backend
and of every other field of the item. -/
theorem resolver_spotify_only (item : NormalizedItem) (preferred : Provider) (limit : Nat)
    (hprov : item.provider ≠ Provider.spotify) :
    ∀ search : Provider → String → Except String (List SearchEntry),
      resolve item preferred search =
          .error ⟨"Resolver is only used for Spotify items in v1.", some "Resolve"⟩ ∧
        resolveCandidates item preferred limit search =
          .error ⟨"Resolver is only used for Spotify items in v1.", some "Resolve"⟩ := by
  intro search
  constructor
  · unfold resolve
    rw [if_pos hprov]
  · unfold resolveCandidates
    rw [if_pos hprov]

/-- A YouTube-provider item: resolution is refused for it. -/
def itemFromYoutube : NormalizedItem :=
  ⟨Provider.youtube, some "anything", some "anyone", some 3, none⟩

/-- C10 (witness): the theorem applied to a concrete non-Spotify item and
a concrete search backend. -/
theorem resolver_spotify_only_witness :
    resolve itemFromYoutube Provider.youtube (fun _ _ => .ok []) =
        .error ⟨"Resolver is only used for Spotify items in v1.", some "Resolve"⟩ ∧
      resolveCandidates itemFromYoutube Provider.youtube 5 (fun _ _ => .ok []) =
        .error ⟨"Resolver is only used for Spotify items in v1.", some "Resolve"⟩ :=
  resolver_spotify_only itemFromYoutube Provider.youtube 5 (by decide) (fun _ _ => .ok [])

/-! ### Claim C3: the Resolve stage of `pipeline._run_single` -/

/-- The stripped console input of the interactive prompt, after `int()`
parsing: blank keeps the default, a non-numeric string is an invalid
selection, a number is a 1-based index. -/
inductive PromptInput where
  | blank
  | notANumber
  | value (n : Int)
  deriving DecidableEq, Repr

/-- The low-confidence `MetadataError` message. -/
def lowConfidenceMsg : String :=
  "Low confidence match. Re-run with `--interactive` to choose a candidate, or try `--resolver soundcloud`."

/-- The interactive-unavailable `MetadataError` message. -/
def interactiveUnavailableMsg : String :=
  "Interactive mode is not available with --quiet/--print-path."

/-- The Resolve-stage decision logic of `pipeline._run_single` (threshold
gate, interactive-availability gate, empty-candidates error and 1-based
selection among the ranked candidates).  All errors raised there carry
stage "Resolve". -/
def resolveStage (candidates : List ResolvedSource) (interactive quiet printPathOnly : Bool)
    (input : PromptInput) : Except RipErr ResolvedSource :=
  match candidates with
  | [] => .error ⟨"No resolver candidates found.", some "Resolve"⟩
  | best :: _ =>
    if best.confidence < 6 / 10 ∧ interactive = false then
      .error ⟨lowConfidenceMsg, some "Resolve"⟩
    else if interactive then
      if quiet ∨ printPathOnly then
        .error ⟨interactiveUnavailableMsg, some "Resolve"⟩
      else
        match input with
        | .blank => .ok best
        | .notANumber => .error ⟨"Invalid selection.", some "Resolve"⟩
        | .value n =>
          if n < 1 ∨ n > (candidates.length : Int) then
            .error ⟨"Selection out of range.", some "Resolve"⟩
          else .ok ((candidates[n.toNat - 1]?).getD best)
    else .ok best

/-- C3: in the Resolve stage of the single-item pipeline, (a) a best
confidence below the fixed 0.6 threshold without interactive selection
fails the item at stage "Resolve"; (b) with interactive selection
requested while output is quiet or machine-consumption (path-only) mode,
interactive selection is refused at stage "Resolve" regardless of the
confidence, so low confidence stays fatal there; (c) otherwise
interactive mode requests a 1-based choice among the ranked candidates:
blank input keeps the best candidate and an in-range selection n returns
the n-th candidate (1-based). -/
theorem resolveStage_policy (candidates : List ResolvedSource) (best : ResolvedSource)
    (rest : List ResolvedSource) (quiet printPathOnly : Bool) (input : PromptInput)
    (hc : candidates = best :: rest) :
    (best.confidence < 6 / 10 →
        resolveStage candidates false quiet printPathOnly input =
          .error ⟨lowConfidenceMsg, some "Resolve"⟩)
    ∧ (quiet = true ∨ printPathOnly = true →
        resolveStage candidates true quiet printPathOnly input =
          .error ⟨interactiveUnavailableMsg, some "Resolve"⟩)
    ∧ (quiet = false → printPathOnly = false →
        resolveStage candidates true quiet printPathOnly .blank = .ok best
        ∧ ∀ n : Nat, 1 ≤ n → n ≤ candidates.length →
            ∃ c, candidates[n - 1]? = some c ∧
              resolveStage candidates true quiet printPathOnly (.value (n : Int)) = .ok c) := by
  subst hc
  refine ⟨?_, ?_, ?_⟩
  · intro hlow
    simp [resolveStage, hlow]
  · intro hq
    rcases hq with hq | hq <;> simp [resolveStage, hq]
  · intro hqf hpf
    constructor
    · simp [resolveStage, hqf, hpf]
    · intro n h1 hn
      have hidx : n - 1 < (best :: rest).length := by
        simp at hn ⊢
        omega
      refine ⟨(best :: rest)[n - 1], List.getElem?_eq_getElem hidx, ?_⟩
      have hrange : ¬ ((n : Int) < 1 ∨ (n : Int) > ((best :: rest).length : Int)) := by
        push_neg
        constructor <;> [exact_mod_cast h1; exact_mod_cast hn]
      have htn : (n : Int).toNat = n := Int.toNat_natCast n
      have hsome : (best :: rest)[(n : Int).toNat - 1]? = some ((best :: rest)[n - 1]) := by
        rw [htn]
        exact List.getElem?_eq_getElem hidx
      have hn2 : n ≤ rest.length + 1 := by simpa using hn
      have hcond : ¬ ((n : Int) < 1 ∨ (n : Int) > ((rest.length + 1 : Nat) : Int)) := by
        push_neg
        constructor
        · exact_mod_cast h1
        · exact_mod_cast hn2
      simp only [resolveStage, hqf, hpf, List.length_cons]
      rw [if_pos trivial, if_neg (show ¬(false = true ∨ false = true) by simp),
        if_neg hcond, hsome]
      rw [if_neg (by simp)]
      rfl

/-- A zero-confidence candidate. -/
def cLow : ResolvedSource := ⟨"u1", Provider.youtube, 0, none, none, none⟩

/-- A full-confidence candidate. -/
def cHigh : ResolvedSource := ⟨"u2", Provider.youtube, 1, none, none, none⟩

/-- C3 (witness): the three conjuncts of the policy theorem at concrete
candidate lists, modes and selections. -/
theorem resolveStage_policy_witness :
    resolveStage [cLow] false false false .blank = .error ⟨lowConfidenceMsg, some "Resolve"⟩
    ∧ resolveStage [cLow] true true false .blank =
        .error ⟨interactiveUnavailableMsg, some "Resolve"⟩
    ∧ resolveStage [cHigh, cLow] true false false (.value 2) = .ok cLow := by
  refine ⟨?_, ?_, ?_⟩
  · exact (resolveStage_policy [cLow] cLow [] false false .blank rfl).1 (by norm_num [cLow])
  · exact (resolveStage_policy [cLow] cLow [] true false .blank rfl).2.1 (Or.inl rfl)
  · obtain ⟨c, hc, hres⟩ :=
      ((resolveStage_policy [cHigh, cLow] cHigh [cLow] false false (.value 2) rfl).2.2
        rfl rfl).2 2 (by norm_num) (by norm_num)
    have hcc : c = cLow := by
      simp at hc
      exact hc.symm
    rw [hcc] at hres
    exact hres

/-! ### Claim C4: the collection expander (`pipeline._run_collection`) -/

/-- The outcome of a collection run: all saved, partial success carrying
both lists (`PartialSuccessError`), or a hard failure (`MetadataError`)
with zero saved paths. -/
inductive CollectionOutcome where
  | ok (saved : List String)
  | mixed (msg : String) (stage : Option String) (saved : List String)
      (failures : List (String × String × Option String))
  | hardFailure (err : RipErr)
  deriving DecidableEq, Repr

/-- One iteration of the collection loop: append the saved path on
success, or one `(subItemUrl, message, stage)` tuple on failure (the
stage is `none` when a non-Ripmedia exception was caught). -/
def collectStep (acc : List String × List (String × String × Option String))
    (p : String × Except RipErr String) :
    List String × List (String × String × Option String) :=
  match p.2 with
  | .ok path => (acc.1 ++ [path], acc.2)
  | .error e => (acc.1, acc.2 ++ [(p.1, e.msg, e.stage)])

/-- The aggregation loop and result policy of `pipeline._run_collection`
(lines 189–251), with each sub-item's pipeline run summarised as its url
plus a saved path or the caught error. -/
def runCollection (outcomes : List (String × Except RipErr String)) : CollectionOutcome :=
  let acc := outcomes.foldl collectStep ([], [])
  if acc.2 ≠ [] ∧ acc.1 ≠ [] then
    .mixed (toString acc.2.length ++ "/" ++ toString outcomes.length ++ " items failed")
      (some "Downloading") acc.1 acc.2
  else if acc.2 ≠ [] ∧ acc.1 = [] then
    .hardFailure ⟨"All items in the collection failed.", some "Downloading"⟩
  else .ok acc.1

/-- The saved paths of the successful sub-items, in order. -/
def savedOf (outcomes : List (String × Except RipErr String)) : List String :=
  outcomes.filterMap (fun p => match p.2 with | .ok path => some path | .error _ => none)

/-- Exactly one failure tuple per failed sub-item, in order. -/
def failuresOf (outcomes : List (String × Except RipErr String)) :
    List (String × String × Option String) :=
  outcomes.filterMap (fun p =>
    match p.2 with | .ok _ => none | .error e => some (p.1, e.msg, e.stage))

theorem collect_fold (outcomes : List (String × Except RipErr String)) :
    outcomes.foldl collectStep ([], []) = (savedOf outcomes, failuresOf outcomes) := by
  suffices h : ∀ s f, outcomes.foldl collectStep (s, f) =
      (s ++ savedOf outcomes, f ++ failuresOf outcomes) by
    simpa using h [] []
  induction outcomes with
  | nil => intro s f; simp [savedOf, failuresOf]
  | cons p rest ih =>
    intro s f
    rcases hp : p.2 with e | path <;>
      simp [List.foldl_cons, collectStep, hp, savedOf, failuresOf, List.filterMap_cons, ih]

theorem saved_failures_length (outcomes : List (String × Except RipErr String)) :
    (savedOf outcomes).length + (failuresOf outcomes).length = outcomes.length := by
  induction outcomes with
  | nil => rfl
  | cons p rest ih =>
    rcases hp : p.2 with e | path <;>
      simp [savedOf, failuresOf, List.filterMap_cons, hp] at ih ⊢ <;> omega

theorem runCollection_eq (outcomes : List (String × Except RipErr String)) :
    runCollection outcomes =
      if failuresOf outcomes ≠ [] ∧ savedOf outcomes ≠ [] then
        .mixed (toString (failuresOf outcomes).length ++ "/" ++ toString outcomes.length ++
          " items failed") (some "Downloading") (savedOf outcomes) (failuresOf outcomes)
      else if failuresOf outcomes ≠ [] ∧ savedOf outcomes = [] then
        .hardFailure ⟨"All items in the collection failed.", some "Downloading"⟩
      else .ok (savedOf outcomes) := by
  unfold runCollection
  rw [collect_fold]

theorem savedOf_all_ok (outcomes : List (String × Except RipErr String))
    (h : ∀ p ∈ outcomes, ∃ path, p.2 = .ok path) :
    (savedOf outcomes).length = outcomes.length ∧ failuresOf outcomes = [] := by
  induction outcomes with
  | nil => exact ⟨rfl, rfl⟩
  | cons p rest ih =>
    obtain ⟨path, hp⟩ := h p (List.mem_cons_self p rest)
    have hrest := ih (fun q hq => h q (List.mem_cons_of_mem p hq))
    simp [savedOf, failuresOf, List.filterMap_cons, hp] at hrest ⊢
    exact hrest

theorem failuresOf_all_err (outcomes : List (String × Except RipErr String))
    (h : ∀ p ∈ outcomes, ∃ e, p.2 = .error e) :
    savedOf outcomes = [] ∧ (failuresOf outcomes).length = outcomes.length := by
  induction outcomes with
  | nil => exact ⟨rfl, rfl⟩
  | cons p rest ih =>
    obtain ⟨e, hp⟩ := h p (List.mem_cons_self p rest)
    have hrest := ih (fun q hq => h q (List.mem_cons_of_mem p hq))
    simp [savedOf, failuresOf, List.filterMap_cons, hp] at hrest ⊢
    exact hrest

/-- C4: for every collection of sub-item outcomes, (a) if all succeed the
result is the list of saved paths with no error (one path per sub-item);
(b) if some but not all fail, a PartialSuccess is raised carrying exactly
the saved paths of the successes and exactly one (subItemUrl, message,
stageName) tuple per failed sub-item, the two lists accounting for every
sub-item; (c) if all of at least one sub-item fail, a hard failure is
raised and the saved list is empty. -/
theorem runCollection_outcomes (outcomes : List (String × Except RipErr String)) :
    ((∀ p ∈ outcomes, ∃ path, p.2 = .ok path) →
        runCollection outcomes = .ok (savedOf outcomes) ∧
          (savedOf outcomes).length = outcomes.length)
    ∧ (failuresOf outcomes ≠ [] → savedOf outcomes ≠ [] →
        runCollection outcomes = .mixed
            (toString (failuresOf outcomes).length ++ "/" ++ toString outcomes.length ++
              " items failed")
            (some "Downloading") (savedOf outcomes) (failuresOf outcomes) ∧
          (savedOf outcomes).length + (failuresOf outcomes).length = outcomes.length)
    ∧ (outcomes ≠ [] → (∀ p ∈ outcomes, ∃ e, p.2 = .error e) →
        runCollection outcomes =
            .hardFailure ⟨"All items in the collection failed.", some "Downloading"⟩ ∧
          savedOf outcomes = []) := by
  refine ⟨?_, ?_, ?_⟩
  · intro hall
    obtain ⟨hlen, hfail⟩ := savedOf_all_ok outcomes hall
    rw [runCollection_eq, hfail]
    simp
    exact hlen
  · intro hfne hsne
    rw [runCollection_eq, if_pos ⟨hfne, hsne⟩]
    exact ⟨rfl, saved_failures_length outcomes⟩
  · intro hne hall
    obtain ⟨hsaved, hlen⟩ := failuresOf_all_err outcomes hall
    have hfne : failuresOf outcomes ≠ [] := by
      intro hnil
      rw [hnil] at hlen
      exact hne (List.length_eq_zero.mp hlen.symm)
    rw [runCollection_eq, hsaved]
    simp [hfne]

/-- The spec's five-item scenario: three successes, two failures. -/
def exFive : List (String × Except RipErr String) :=
  [("u1", .ok "p1"), ("u2", .error ⟨"boom2", some "Download"⟩), ("u3", .ok "p2"),
    ("u4", .error ⟨"boom4", none⟩), ("u5", .ok "p3")]

/-- C4 (witness): the mixed-outcome conjunct at the concrete 3-of-5
scenario: exactly 3 saved paths and exactly 2 failure tuples. -/
theorem runCollection_outcomes_witness :
    (runCollection exFive = .mixed
        (toString (failuresOf exFive).length ++ "/" ++ toString exFive.length ++ " items failed")
        (some "Downloading") (savedOf exFive) (failuresOf exFive) ∧
      (savedOf exFive).length + (failuresOf exFive).length = exFive.length)
    ∧ savedOf exFive = ["p1", "p2", "p3"]
    ∧ failuresOf exFive = [("u2", "boom2", some "Download"), ("u4", "boom4", none)] :=
  ⟨(runCollection_outcomes exFive).2.1 (by decide) (by decide), by decide, by decide⟩

/-! ### Claim C5: the Tagging/Saved tail of `pipeline._run_single` -/

/-- A recorded `StepResult` (label, ok flag, optional detail). -/
structure StageEvent where
  label : String
  ok : Bool
  detail : Option String
  deriving DecidableEq, Repr

/-- The Tagging and Saved steps of `pipeline._run_single` (lines
509–527): the `tag_file` call's outcome is `tagRes`; a raised
`RipmediaError` is caught and recorded as an ok step with detail
"skipped" (a successful tagging records no detail), the Saved step is
emitted either way, and the downloaded path is returned. -/
def tagAndSave (path : String) (tagRes : Except RipErr Unit) :
    List StageEvent × Except RipErr String :=
  let tagEvent : StageEvent :=
    match tagRes with
    | .ok _ => ⟨"Tagging", true, none⟩
    | .error _ => ⟨"Tagging", true, some "skipped"⟩
  ([tagEvent, ⟨"Saved", true, some path⟩], .ok path)

/-- C5: a tagging failure never aborts the item: it is recorded as a stage
event with ok = true and detail "skipped", the Saved event is still
emitted, and the downloaded path is still returned as the item's success;
moreover the stage returns the path for every tagging outcome. -/
theorem tagging_never_fatal (path : String) (e : RipErr) :
    tagAndSave path (.error e) =
        ([⟨"Tagging", true, some "skipped"⟩, ⟨"Saved", true, some path⟩], .ok path)
      ∧ ∀ tagRes : Except RipErr Unit, (tagAndSave path tagRes).2 = .ok path := by
  refine ⟨rfl, ?_⟩
  intro tagRes
  cases tagRes <;> rfl

/-! ### Claim C6: the download manager's per-item status
(`webhost.DownloadManager`) -/

/-- The `ItemState.status` values. -/
inductive ItemStatus where
  | queued
  | running
  | done
  | error
  deriving DecidableEq, Repr

/-- The fields of `webhost.ItemState` touched by the operations modelled
here. -/
structure WebItemState where
  status : ItemStatus
  title : Option String
  current : Option String
  errorMsg : Option String
  deriving DecidableEq, Repr

/-- A fresh state, as `enqueue` creates it. -/
def enqueuedState : WebItemState := ⟨.queued, none, none, none⟩

/-- The `DownloadManager` operations that mutate one `ItemState`. -/
inductive ManagerOp where
  | recordMetadata (title provider kind : String)
  | recordStatus (label : String)
  | recordStep (label : String)
  | recordProgress
  | finishDone
  | finishError (msg : String)
  deriving DecidableEq, Repr

/-- The state update each operation performs: `_record_status` guards
terminal statuses, `_record_metadata` sets status to "running"
unconditionally, `_record_step` and `_record_progress` leave the status
alone, and the end of `_run` sets the terminal status. -/
def applyOp (s : WebItemState) : ManagerOp → WebItemState
  | .recordMetadata t _ _ => { s with title := some t, status := .running }
  | .recordStatus label =>
    { s with
      current := some label
      status := if s.status = .done ∨ s.status = .error then s.status else .running }
  | .recordStep _ => s
  | .recordProgress => s
  | .finishDone => { s with status := .done }
  | .finishError m => { s with status := .error, errorMsg := some m }


/-- Position of a status along queued → running → terminal. -/
def statusRank : ItemStatus → Nat
  | .queued => 0
  | .running => 1
  | .done => 2
  | .error => 2

/-- The terminal statuses. -/
def isTerminal : ItemStatus → Bool
  | .done => true
  | .error => true
  | _ => false

/-- One forward move: the rank does not decrease and a terminal status is
never left for a non-terminal one (so in particular done/error never goes
back to running or queued). -/
def forwardStep (s t : ItemStatus) : Bool :=
  decide (statusRank s ≤ statusRank t) && (!isTerminal s || isTerminal t)

/-- Every consecutive status pair along the trace moves forward. -/
def forwardTrace (s : WebItemState) : List ManagerOp → Bool
  | [] => true
  | op :: rest => forwardStep s.status (applyOp s op).status && forwardTrace (applyOp s op) rest

/-- The metadata operations. -/
def isMetaOp : ManagerOp → Bool
  | .recordMetadata _ _ _ => true
  | _ => false

/-- The terminal operations (the done/error updates at the end of
`_run`). -/
def isTerminalOp : ManagerOp → Bool
  | .finishDone => true
  | .finishError _ => true
  | _ => false

/-- The discipline the worker's call order obeys: a metadata recording
never comes after a terminal update. -/
def metadataBeforeTerminal : List ManagerOp → Bool
  | [] => true
  | op :: rest =>
    (if isTerminalOp op then rest.all (fun y => !isMetaOp y) else true) &&
      metadataBeforeTerminal rest

/-- C6 (counterexample): the status can move backward: after the terminal
done update, a metadata recording unconditionally sets the status back to
running, so the operation sequence [finishDone, recordMetadata] does not
move the status only forward. -/
theorem status_forward_counterexample :
    forwardTrace enqueuedState
      [ManagerOp.finishDone, ManagerOp.recordMetadata "t" "p" "k"] = false := by
  decide

theorem forwardStep_applyOp (s : WebItemState) (op : ManagerOp)
    (h : isMetaOp op = false ∨ isTerminal s.status = false) :
    forwardStep s.status (applyOp s op).status = true := by
  cases op <;> cases hs : s.status <;>
    simp_all [applyOp, forwardStep, isTerminal, statusRank, isMetaOp]

theorem forwardTrace_of (ops : List ManagerOp) : ∀ s : WebItemState,
    metadataBeforeTerminal ops = true →
    (isTerminal s.status = true → ops.all (fun y => !isMetaOp y) = true) →
    forwardTrace s ops = true := by
  induction ops with
  | nil => intro s _ _; rfl
  | cons op rest ih =>
    intro s hsch hterm
    rw [metadataBeforeTerminal, Bool.and_eq_true] at hsch
    rw [forwardTrace, Bool.and_eq_true]
    constructor
    · apply forwardStep_applyOp
      by_cases hst : isTerminal s.status = true
      · left
        have := hterm hst
        rw [List.all_cons, Bool.and_eq_true] at this
        simpa using this.1
      · right
        simpa using hst
    · apply ih (applyOp s op) hsch.2
      intro hterm2
      by_cases ht : isTerminalOp op = true
      · have := hsch.1
        rw [if_pos ht] at this
        exact this
      · have hst : isTerminal s.status = true := by
          cases op <;> cases hs : s.status <;>
            simp_all [applyOp, isTerminal, isTerminalOp]
        have := hterm hst
        rw [List.all_cons, Bool.and_eq_true] at this
        exact this.2

/-- C6 (amended): for every ItemState and every sequence of manager
operations in which no metadata recording comes after a terminal update
(the discipline the worker obeys: metadata is recorded during
`run_download`, strictly before the final done/error update), the item's
status only moves forward along queued → running → done/error and never
backward; the metadata recorder alone, issued after a terminal update,
would move a terminal status back to running. -/
theorem status_forward_amended (ops : List ManagerOp)
    (h : metadataBeforeTerminal ops = true) :
    forwardTrace enqueuedState ops = true := by
  apply forwardTrace_of ops enqueuedState h
  intro hterm
  simp [enqueuedState, isTerminal] at hterm

/-- A representative worker trace: status tick, metadata, steps,
progress, terminal done. -/
def opsWorkerTrace : List ManagerOp :=
  [ManagerOp.recordStatus "Starting", ManagerOp.recordMetadata "t" "spotify" "track",
    ManagerOp.recordStep "Resolve", ManagerOp.recordProgress,
    ManagerOp.recordStep "Download", ManagerOp.finishDone]

/-- C6 (witness): the amended theorem on a concrete worker trace. -/
theorem status_forward_amended_witness :
    metadataBeforeTerminal opsWorkerTrace = true ∧
      forwardTrace enqueuedState opsWorkerTrace = true :=
  ⟨by decide, status_forward_amended opsWorkerTrace (by decide)⟩

/-! ### Claim C7: the event broker (`webhost.EventBroker`) -/

/-- A subscriber's delivery queue (`queue.Queue`): `maxsize = 0` means
unbounded, as for the queues `subscribe` creates. -/
structure SubQueue where
  maxsize : Nat
  items : List String
  deriving DecidableEq, Repr

/-- `queue.Queue.put_nowait`: fails (raises `Full`, modelled as `none`)
exactly when a bounded queue is at capacity. -/
def putNowait (q : SubQueue) (message : String) : Option SubQueue :=
  if 0 < q.maxsize ∧ q.maxsize ≤ q.items.length then none
  else some { q with items := q.items ++ [message] }

/-- `EventBroker.subscribe`: registers a fresh unbounded queue. -/
def subscribeQueue (subs : List SubQueue) : List SubQueue :=
  subs ++ [⟨0, []⟩]

/-- `EventBroker.publish`: attempt `put_nowait` on every subscriber's
queue; a failed put is swallowed (`except Exception: continue`) and the
loop moves on to the next subscriber. -/
def publish (subs : List SubQueue) (message : String) : List SubQueue :=
  subs.map (fun q =>
    match putNowait q message with
    | none => q
    | some q2 => q2)

/-- C7: publish is a total function (in the embedding every `put_nowait`
failure is swallowed, so no exception escapes): with zero subscribers it
returns normally with nothing delivered, and in general subscriber `i`'s
queue after the publish depends only on that queue — a saturated queue is
left unchanged while every other subscriber still receives the message
appended to its own queue. -/
theorem publish_never_fails (subs : List SubQueue) (message : String) :
    publish [] message = []
    ∧ (publish subs message).length = subs.length
    ∧ ∀ i : Nat, (publish subs message)[i]? = (subs[i]?).map
        (fun q => if 0 < q.maxsize ∧ q.maxsize ≤ q.items.length then q
          else { q with items := q.items ++ [message] }) := by
  have hfun : ∀ q : SubQueue,
      (match putNowait q message with | none => q | some q2 => q2) =
        if 0 < q.maxsize ∧ q.maxsize ≤ q.items.length then q
        else { q with items := q.items ++ [message] } := by
    intro q
    unfold putNowait
    split_ifs with h <;> rfl
  refine ⟨rfl, List.length_map _ _, ?_⟩
  intro i
  rw [publish, List.getElem?_map]
  exact congrArg (fun f => Option.map f subs[i]?) (funext hfun)

end Ripmedia
